import Mathlib

/-!
Verification of the vark editor's content codec and URL synchronization
controller, embedded shallowly from the TypeScript source.

Strings are modelled as lists of Unicode code points (List Nat), bytes as
lists of Nat below 256.  The platform primitives the source calls are
embedded concretely where their semantics are standardized:
TextEncoder/TextDecoder (WHATWG UTF-8, BOM-stripping, lossy), btoa/atob
(forgiving base64), JSON.stringify escaping and JSON.parse.  The gzip
CompressionStream/DecompressionStream pair is environment-supplied and is
modelled as an abstract Compressor capability, exactly as the design notes
of the specification prescribe; theorems that need it take its round-trip
and output-shape facts as hypotheses and witnesses instantiate a concrete
compressor.
-/

namespace Vark

/-- Convert a Lean string literal to its list of code points. -/
def str2cp (s : String) : List Nat := s.data.map Char.toNat

/-- A Unicode scalar value: a code point that is not a surrogate. -/
def ValidScalar (c : Nat) : Prop := c < 0x110000 ∧ ¬ (0xD800 ≤ c ∧ c ≤ 0xDFFF)

instance (c : Nat) : Decidable (ValidScalar c) := by
  unfold ValidScalar
  infer_instance

/-- UTF-8 encoding of one scalar value (TextEncoder on one code point). -/
def utf8EncodeChar (c : Nat) : List Nat :=
  if c < 0x80 then [c]
  else if c < 0x800 then [0xC0 + c / 0x40, 0x80 + c % 0x40]
  else if c < 0x10000 then
    [0xE0 + c / 0x1000, 0x80 + (c / 0x40) % 0x40, 0x80 + c % 0x40]
  else
    [0xF0 + c / 0x40000, 0x80 + (c / 0x1000) % 0x40, 0x80 + (c / 0x40) % 0x40,
      0x80 + c % 0x40]

/-- TextEncoder: UTF-8 bytes of a code-point string. -/
def utf8Encode (s : List Nat) : List Nat := (s.map utf8EncodeChar).flatten

/-- WHATWG UTF-8 decoder with replacement (TextDecoder with fatal false):
    malformed sequences yield U+FFFD and decoding resumes at the offending
    byte. -/
def utf8DecodeCore : List Nat → List Nat
  | [] => []
  | b1 :: rest =>
    if b1 < 0x80 then b1 :: utf8DecodeCore rest
    else if 0xC2 ≤ b1 ∧ b1 ≤ 0xDF then
      match rest with
      | [] => [0xFFFD]
      | b2 :: rest2 =>
        if 0x80 ≤ b2 ∧ b2 ≤ 0xBF then
          ((b1 - 0xC0) * 0x40 + (b2 - 0x80)) :: utf8DecodeCore rest2
        else 0xFFFD :: utf8DecodeCore (b2 :: rest2)
    else if 0xE0 ≤ b1 ∧ b1 ≤ 0xEF then
      match rest with
      | [] => [0xFFFD]
      | b2 :: rest2 =>
        if (if b1 = 0xE0 then 0xA0 ≤ b2 ∧ b2 ≤ 0xBF
            else if b1 = 0xED then 0x80 ≤ b2 ∧ b2 ≤ 0x9F
            else 0x80 ≤ b2 ∧ b2 ≤ 0xBF) then
          match rest2 with
          | [] => [0xFFFD]
          | b3 :: rest3 =>
            if 0x80 ≤ b3 ∧ b3 ≤ 0xBF then
              ((b1 - 0xE0) * 0x1000 + (b2 - 0x80) * 0x40 + (b3 - 0x80)) ::
                utf8DecodeCore rest3
            else 0xFFFD :: utf8DecodeCore (b3 :: rest3)
        else 0xFFFD :: utf8DecodeCore (b2 :: rest2)
    else if 0xF0 ≤ b1 ∧ b1 ≤ 0xF4 then
      match rest with
      | [] => [0xFFFD]
      | b2 :: rest2 =>
        if (if b1 = 0xF0 then 0x90 ≤ b2 ∧ b2 ≤ 0xBF
            else if b1 = 0xF4 then 0x80 ≤ b2 ∧ b2 ≤ 0x8F
            else 0x80 ≤ b2 ∧ b2 ≤ 0xBF) then
          match rest2 with
          | [] => [0xFFFD]
          | b3 :: rest3 =>
            if 0x80 ≤ b3 ∧ b3 ≤ 0xBF then
              match rest3 with
              | [] => [0xFFFD]
              | b4 :: rest4 =>
                if 0x80 ≤ b4 ∧ b4 ≤ 0xBF then
                  ((b1 - 0xF0) * 0x40000 + (b2 - 0x80) * 0x1000 +
                    (b3 - 0x80) * 0x40 + (b4 - 0x80)) :: utf8DecodeCore rest4
                else 0xFFFD :: utf8DecodeCore (b4 :: rest4)
            else 0xFFFD :: utf8DecodeCore (b3 :: rest3)
        else 0xFFFD :: utf8DecodeCore (b2 :: rest2)
    else 0xFFFD :: utf8DecodeCore rest
termination_by l => l.length
decreasing_by all_goals simp_wf <;> omega

/-- TextDecoder for the utf-8 label with default options: a leading
    byte-order mark is removed, then the stream is decoded with
    replacement. -/
def utf8DecodeLossy (bs : List Nat) : List Nat :=
  if bs.take 3 = [0xEF, 0xBB, 0xBF] then utf8DecodeCore (bs.drop 3)
  else utf8DecodeCore bs

set_option maxHeartbeats 1000000 in
theorem utf8DecodeCore_encodeChar (c : Nat) (h : ValidScalar c) (rest : List Nat) :
    utf8DecodeCore (utf8EncodeChar c ++ rest) = c :: utf8DecodeCore rest := by
  obtain ⟨hlt, hsur⟩ := h
  by_cases h1 : c < 0x80
  · have henc : utf8EncodeChar c = [c] := by
      rw [utf8EncodeChar, if_pos h1]
    rw [henc]
    simp only [List.cons_append, List.nil_append]
    rw [utf8DecodeCore.eq_def]
    simp only []
    rw [if_pos h1]
  · by_cases h2 : c < 0x800
    · have henc : utf8EncodeChar c = [0xC0 + c / 0x40, 0x80 + c % 0x40] := by
        rw [utf8EncodeChar, if_neg h1, if_pos h2]
      rw [henc]
      simp only [List.cons_append, List.nil_append]
      rw [utf8DecodeCore.eq_def]
      simp only []
      split_ifs <;>
        first
          | omega
          | (simp only [List.cons.injEq]; exact ⟨by omega, trivial⟩)
    · by_cases h3 : c < 0x10000
      · have henc : utf8EncodeChar c =
            [0xE0 + c / 0x1000, 0x80 + (c / 0x40) % 0x40, 0x80 + c % 0x40] := by
          rw [utf8EncodeChar, if_neg h1, if_neg h2, if_pos h3]
        rw [henc]
        simp only [List.cons_append, List.nil_append]
        rw [utf8DecodeCore.eq_def]
        simp only []
        split_ifs <;>
          first
            | omega
            | (simp only [List.cons.injEq]; exact ⟨by omega, trivial⟩)
      · have henc : utf8EncodeChar c =
            [0xF0 + c / 0x40000, 0x80 + (c / 0x1000) % 0x40,
              0x80 + (c / 0x40) % 0x40, 0x80 + c % 0x40] := by
          rw [utf8EncodeChar, if_neg h1, if_neg h2, if_neg h3]
        rw [henc]
        simp only [List.cons_append, List.nil_append]
        rw [utf8DecodeCore.eq_def]
        simp only []
        split_ifs <;>
          first
            | omega
            | (simp only [List.cons.injEq]; exact ⟨by omega, trivial⟩)

theorem utf8DecodeCore_encode (s : List Nat) (h : ∀ c ∈ s, ValidScalar c) :
    utf8DecodeCore (utf8Encode s) = s := by
  induction s with
  | nil => rw [show utf8Encode [] = [] from rfl, utf8DecodeCore.eq_def]
  | cons c t ih =>
    have hc : ValidScalar c := h c (by simp)
    have ht : ∀ x ∈ t, ValidScalar x := fun x hx => h x (by simp [hx])
    have hexp : utf8Encode (c :: t) = utf8EncodeChar c ++ utf8Encode t := by
      simp [utf8Encode]
    rw [hexp, utf8DecodeCore_encodeChar c hc, ih ht]

theorem utf8Encode_take3_bom (c : Nat) (l : List Nat) (hv : ValidScalar c)
    (hc : c ≠ 0xFEFF) : (utf8EncodeChar c ++ l).take 3 ≠ [0xEF, 0xBB, 0xBF] := by
  obtain ⟨hlt, hsur⟩ := hv
  intro hEq
  by_cases h1 : c < 0x80
  · rw [utf8EncodeChar, if_pos h1] at hEq
    simp only [List.cons_append, List.nil_append, List.take_succ_cons,
      List.cons.injEq] at hEq
    omega
  · by_cases h2 : c < 0x800
    · rw [utf8EncodeChar, if_neg h1, if_pos h2] at hEq
      simp only [List.cons_append, List.nil_append, List.take_succ_cons,
        List.cons.injEq] at hEq
      omega
    · by_cases h3 : c < 0x10000
      · rw [utf8EncodeChar, if_neg h1, if_neg h2, if_pos h3] at hEq
        simp only [List.cons_append, List.nil_append, List.take_succ_cons,
          List.cons.injEq] at hEq
        omega
      · rw [utf8EncodeChar, if_neg h1, if_neg h2, if_neg h3] at hEq
        simp only [List.cons_append, List.nil_append, List.take_succ_cons,
          List.cons.injEq] at hEq
        omega

/-- The lossy decoder inverts the encoder on valid strings that do not start
    with U+FEFF (whose encoding would be eaten as a byte-order mark). -/
theorem utf8DecodeLossy_encode (s : List Nat) (h : ∀ c ∈ s, ValidScalar c)
    (hb : s.head? ≠ some 0xFEFF) : utf8DecodeLossy (utf8Encode s) = s := by
  have hcore := utf8DecodeCore_encode s h
  cases s with
  | nil =>
    rw [show utf8Encode [] = [] from rfl, utf8DecodeLossy]
    simp only [List.take_nil, List.drop_nil]
    rw [if_neg (by simp), utf8DecodeCore.eq_def]
  | cons c t =>
    have hc : ValidScalar c := h c (by simp)
    have hcne : c ≠ 0xFEFF := by
      intro hEq
      exact hb (by simp [hEq])
    have hexp : utf8Encode (c :: t) = utf8EncodeChar c ++ utf8Encode t := by
      simp [utf8Encode]
    rw [utf8DecodeLossy, hexp,
      if_neg (utf8Encode_take3_bom c (utf8Encode t) hc hcne)]
    rw [hexp] at hcore
    exact hcore

/-- Index to character of the standard base64 alphabet that btoa emits. -/
def b64Char (n : Nat) : Nat :=
  if n < 26 then 65 + n
  else if n < 52 then 97 + (n - 26)
  else if n < 62 then 48 + (n - 52)
  else if n = 62 then 43
  else 47

/-- btoa on a binary string: standard base64 with '=' padding (code 61). -/
def btoaM : List Nat → List Nat
  | [] => []
  | [b1] => [b64Char (b1 / 4), b64Char (b1 % 4 * 16), 61, 61]
  | [b1, b2] =>
    [b64Char (b1 / 4), b64Char (b1 % 4 * 16 + b2 / 16), b64Char (b2 % 16 * 4), 61]
  | b1 :: b2 :: b3 :: rest =>
    b64Char (b1 / 4) :: b64Char (b1 % 4 * 16 + b2 / 16) ::
      b64Char (b2 % 16 * 4 + b3 / 64) :: b64Char (b3 % 64) :: btoaM rest

/-- Decode one base64 alphabet character; anything else (including '=') is
    invalid. -/
def b64Dec (c : Nat) : Option Nat :=
  if 65 ≤ c ∧ c ≤ 90 then some (c - 65)
  else if 97 ≤ c ∧ c ≤ 122 then some (c - 97 + 26)
  else if 48 ≤ c ∧ c ≤ 57 then some (c - 48 + 52)
  else if c = 43 then some 62
  else if c = 47 then some 63
  else none

/-- ASCII whitespace, removed by forgiving-base64. -/
def isAsciiWs (c : Nat) : Bool :=
  c = 9 || c = 10 || c = 12 || c = 13 || c = 32

/-- Remove up to two trailing '=' characters. -/
def dropPad (l : List Nat) : List Nat :=
  match l.reverse with
  | x :: y :: r => if x = 61 then (if y = 61 then r.reverse else (y :: r).reverse) else l
  | x :: r => if x = 61 then r.reverse else l
  | [] => l

/-- Padding is only recognized when the length is a multiple of four. -/
def stripPad (l : List Nat) : List Nat :=
  if l.length % 4 = 0 then dropPad l else l

/-- Decode a padding-free base64 character sequence into bytes; a final
    group of two or three characters contributes one or two bytes, a final
    group of one character is invalid. -/
def b64Quanta : List Nat → Option (List Nat)
  | [] => some []
  | [a, b] => do
      let va ← b64Dec a
      let vb ← b64Dec b
      some [va * 4 + vb / 16]
  | [a, b, c] => do
      let va ← b64Dec a
      let vb ← b64Dec b
      let vc ← b64Dec c
      some [va * 4 + vb / 16, vb % 16 * 16 + vc / 4]
  | a :: b :: c :: d :: rest => do
      let va ← b64Dec a
      let vb ← b64Dec b
      let vc ← b64Dec c
      let vd ← b64Dec d
      let tail ← b64Quanta rest
      some ((va * 4 + vb / 16) :: (vb % 16 * 16 + vc / 4) :: (vc % 4 * 64 + vd) :: tail)
  | [_] => none

/-- atob: the WHATWG forgiving-base64 decoder.  Returns none where the real
    atob would throw. -/
def atobM (l : List Nat) : Option (List Nat) :=
  if (stripPad (l.filter (fun c => !isAsciiWs c))).length % 4 = 1 then none
  else b64Quanta (stripPad (l.filter (fun c => !isAsciiWs c)))

/-- Characters btoa can emit: the standard base64 alphabet plus '='. -/
def IsB64OutChar (c : Nat) : Prop :=
  (65 ≤ c ∧ c ≤ 90) ∨ (97 ≤ c ∧ c ≤ 122) ∨ (48 ≤ c ∧ c ≤ 57) ∨
    c = 43 ∨ c = 47 ∨ c = 61

instance (c : Nat) : Decidable (IsB64OutChar c) := by
  unfold IsB64OutChar
  infer_instance

theorem isB64OutChar_b64Char (n : Nat) : IsB64OutChar (b64Char n) := by
  unfold b64Char IsB64OutChar
  split_ifs <;> omega

theorem b64Char_ne_pad (n : Nat) : b64Char n ≠ 61 := by
  unfold b64Char
  split_ifs <;> omega

theorem b64Dec_b64Char (n : Nat) (h : n < 64) : b64Dec (b64Char n) = some n := by
  unfold b64Char b64Dec
  split_ifs <;> first | omega | (simp only [Option.some.injEq]; omega)

theorem btoaM_chars (l : List Nat) : ∀ c ∈ btoaM l, IsB64OutChar c := by
  induction l using btoaM.induct with
  | case1 => simp [btoaM]
  | case2 b1 =>
    simp only [btoaM, List.mem_cons, List.not_mem_nil, or_false]
    rintro c (rfl | rfl | rfl | rfl) <;>
      first | exact isB64OutChar_b64Char _ | (unfold IsB64OutChar; omega)
  | case3 b1 b2 =>
    simp only [btoaM, List.mem_cons, List.not_mem_nil, or_false]
    rintro c (rfl | rfl | rfl | rfl) <;>
      first | exact isB64OutChar_b64Char _ | (unfold IsB64OutChar; omega)
  | case4 b1 b2 b3 rest ih =>
    simp only [btoaM, List.mem_cons]
    rintro c (rfl | rfl | rfl | rfl | hmem) <;>
      first | exact isB64OutChar_b64Char _ | exact ih c hmem

theorem btoaM_len_mod (l : List Nat) : (btoaM l).length % 4 = 0 := by
  induction l using btoaM.induct with
  | case1 => simp [btoaM]
  | case2 b1 => simp [btoaM]
  | case3 b1 b2 => simp [btoaM]
  | case4 b1 b2 b3 rest ih =>
    simp only [btoaM, List.length_cons]
    omega

theorem btoaM_ne_nil (l : List Nat) (h : l ≠ []) : btoaM l ≠ [] := by
  cases l with
  | nil => exact absurd rfl h
  | cons b1 t =>
    cases t with
    | nil => simp [btoaM]
    | cons b2 t2 =>
      cases t2 with
      | nil => simp [btoaM]
      | cons b3 t3 => simp [btoaM]

theorem btoaM_no_ws (l : List Nat) :
    (btoaM l).filter (fun c => !isAsciiWs c) = btoaM l := by
  apply List.filter_eq_self.mpr
  intro c hc
  have h := btoaM_chars l c hc
  unfold IsB64OutChar at h
  have hws : isAsciiWs c = false := by
    unfold isAsciiWs
    simp only [Bool.or_eq_false_iff, decide_eq_false_iff_not]
    omega
  simp [hws]

/-- Base64 body: what btoa emits before the '=' padding. -/
def b64Body : List Nat → List Nat
  | [] => []
  | [b1] => [b64Char (b1 / 4), b64Char (b1 % 4 * 16)]
  | [b1, b2] =>
    [b64Char (b1 / 4), b64Char (b1 % 4 * 16 + b2 / 16), b64Char (b2 % 16 * 4)]
  | b1 :: b2 :: b3 :: rest =>
    b64Char (b1 / 4) :: b64Char (b1 % 4 * 16 + b2 / 16) ::
      b64Char (b2 % 16 * 4 + b3 / 64) :: b64Char (b3 % 64) :: b64Body rest

theorem b64Body_len_mod (l : List Nat) : (b64Body l).length % 4 ≠ 1 := by
  induction l using b64Body.induct with
  | case1 => simp [b64Body]
  | case2 b1 => simp [b64Body]
  | case3 b1 b2 => simp [b64Body]
  | case4 b1 b2 b3 rest ih =>
    simp only [b64Body, List.length_cons]
    omega

theorem b64Body_chars (l : List Nat) : ∀ c ∈ b64Body l, c ≠ 61 := by
  induction l using b64Body.induct with
  | case1 => simp [b64Body]
  | case2 b1 =>
    simp only [b64Body, List.mem_cons, List.not_mem_nil, or_false]
    rintro c (rfl | rfl) <;> exact b64Char_ne_pad _
  | case3 b1 b2 =>
    simp only [b64Body, List.mem_cons, List.not_mem_nil, or_false]
    rintro c (rfl | rfl | rfl) <;> exact b64Char_ne_pad _
  | case4 b1 b2 b3 rest ih =>
    simp only [b64Body, List.mem_cons]
    rintro c (rfl | rfl | rfl | rfl | hmem) <;>
      first | exact b64Char_ne_pad _ | exact ih c hmem

theorem dropPad_no_pad (l : List Nat) (h : ∀ c ∈ l, c ≠ 61) : dropPad l = l := by
  unfold dropPad
  rcases hrev : l.reverse with _ | ⟨x, r⟩
  · rfl
  · have hx : x ≠ 61 := h x (by
      have hm : x ∈ l.reverse := by rw [hrev]; simp
      simpa using hm)
    rcases r with _ | ⟨y, r2⟩
    · simp only [if_neg hx]
    · simp only [if_neg hx]

theorem dropPad_append (l₁ l₂ : List Nat) (h : 2 ≤ l₂.length) :
    dropPad (l₁ ++ l₂) = l₁ ++ dropPad l₂ := by
  rcases hrev : l₂.reverse with _ | ⟨x, r⟩
  · have : l₂ = [] := by simpa using congrArg List.reverse hrev
    subst this
    simp at h
  · rcases hr : r with _ | ⟨y, r2⟩
    · subst hr
      have : l₂.length = 1 := by
        have := congrArg List.length hrev
        simpa using this
      omega
    · subst hr
      have hrev1 : (l₁ ++ l₂).reverse = x :: y :: (r2 ++ l₁.reverse) := by
        rw [List.reverse_append, hrev]
        simp
      unfold dropPad
      rw [hrev1, hrev]
      by_cases hx : x = 61
      · by_cases hy : y = 61
        · simp only [if_pos hx, if_pos hy]
          simp
        · simp only [if_pos hx, if_neg hy]
          simp
      · simp only [if_neg hx]

theorem dropPad_btoaM (l : List Nat) : dropPad (btoaM l) = b64Body l := by
  induction l using btoaM.induct with
  | case1 => rfl
  | case2 b1 =>
    show dropPad [b64Char (b1 / 4), b64Char (b1 % 4 * 16), 61, 61] = _
    unfold dropPad
    simp only [List.reverse_cons, List.reverse_nil, List.nil_append,
      List.cons_append, List.append_nil]
    simp [b64Body]
  | case3 b1 b2 =>
    show dropPad [b64Char (b1 / 4), b64Char (b1 % 4 * 16 + b2 / 16),
      b64Char (b2 % 16 * 4), 61] = _
    unfold dropPad
    simp only [List.reverse_cons, List.reverse_nil, List.nil_append,
      List.cons_append, List.append_nil]
    simp [b64Char_ne_pad, b64Body]
  | case4 b1 b2 b3 rest ih =>
    show dropPad (b64Char (b1 / 4) :: b64Char (b1 % 4 * 16 + b2 / 16) ::
      b64Char (b2 % 16 * 4 + b3 / 64) :: b64Char (b3 % 64) :: btoaM rest) = _
    rcases Decidable.em (rest = []) with hnil | hne
    · subst hnil
      show dropPad ([b64Char (b1 / 4), b64Char (b1 % 4 * 16 + b2 / 16),
        b64Char (b2 % 16 * 4 + b3 / 64), b64Char (b3 % 64)] ++ []) = _
      rw [List.append_nil]
      rw [dropPad_no_pad _ (by
        intro c hc
        simp only [List.mem_cons, List.not_mem_nil, or_false] at hc
        rcases hc with rfl | rfl | rfl | rfl <;> exact b64Char_ne_pad _)]
      simp [b64Body, btoaM]
    · have h4 : 2 ≤ (btoaM rest).length := by
        have hmod := btoaM_len_mod rest
        have hnn := btoaM_ne_nil rest hne
        rcases hl : (btoaM rest).length with _ | n
        · exact absurd (List.length_eq_zero.mp hl) hnn
        · omega
      have hsp : b64Char (b1 / 4) :: b64Char (b1 % 4 * 16 + b2 / 16) ::
          b64Char (b2 % 16 * 4 + b3 / 64) :: b64Char (b3 % 64) :: btoaM rest =
          [b64Char (b1 / 4), b64Char (b1 % 4 * 16 + b2 / 16),
            b64Char (b2 % 16 * 4 + b3 / 64), b64Char (b3 % 64)] ++ btoaM rest := by
        simp
      rw [hsp, dropPad_append _ _ h4, ih]
      simp [b64Body]

theorem b64Quanta_body (l : List Nat) (h : ∀ b ∈ l, b < 256) :
    b64Quanta (b64Body l) = some l := by
  induction l using b64Body.induct with
  | case1 => rfl
  | case2 b1 =>
    have hb1 : b1 < 256 := h b1 (by simp)
    have d1 : b64Dec (b64Char (b1 / 4)) = some (b1 / 4) :=
      b64Dec_b64Char _ (by omega)
    have d2 : b64Dec (b64Char (b1 % 4 * 16)) = some (b1 % 4 * 16) :=
      b64Dec_b64Char _ (by omega)
    simp only [b64Body, b64Quanta, d1, d2, Option.bind_eq_bind, Option.some_bind,
      Option.some.injEq, List.cons.injEq, and_true]
    omega
  | case3 b1 b2 =>
    have hb1 : b1 < 256 := h b1 (by simp)
    have hb2 : b2 < 256 := h b2 (by simp)
    have d1 : b64Dec (b64Char (b1 / 4)) = some (b1 / 4) :=
      b64Dec_b64Char _ (by omega)
    have d2 : b64Dec (b64Char (b1 % 4 * 16 + b2 / 16)) =
        some (b1 % 4 * 16 + b2 / 16) := b64Dec_b64Char _ (by omega)
    have d3 : b64Dec (b64Char (b2 % 16 * 4)) = some (b2 % 16 * 4) :=
      b64Dec_b64Char _ (by omega)
    simp only [b64Body, b64Quanta, d1, d2, d3, Option.bind_eq_bind,
      Option.some_bind, Option.some.injEq, List.cons.injEq, and_true]
    omega
  | case4 b1 b2 b3 rest ih =>
    have hb1 : b1 < 256 := h b1 (by simp)
    have hb2 : b2 < 256 := h b2 (by simp)
    have hb3 : b3 < 256 := h b3 (by simp)
    have hrest : ∀ b ∈ rest, b < 256 := fun b hb => h b (by simp [hb])
    have d1 : b64Dec (b64Char (b1 / 4)) = some (b1 / 4) :=
      b64Dec_b64Char _ (by omega)
    have d2 : b64Dec (b64Char (b1 % 4 * 16 + b2 / 16)) =
        some (b1 % 4 * 16 + b2 / 16) := b64Dec_b64Char _ (by omega)
    have d3 : b64Dec (b64Char (b2 % 16 * 4 + b3 / 64)) =
        some (b2 % 16 * 4 + b3 / 64) := b64Dec_b64Char _ (by omega)
    have d4 : b64Dec (b64Char (b3 % 64)) = some (b3 % 64) :=
      b64Dec_b64Char _ (by omega)
    simp only [b64Body, b64Quanta, d1, d2, d3, d4, ih hrest,
      Option.bind_eq_bind, Option.some_bind, Option.some.injEq,
      List.cons.injEq, and_true]
    omega

/-- atob inverts btoa on byte lists. -/
theorem atobM_btoaM (l : List Nat) (h : ∀ b ∈ l, b < 256) :
    atobM (btoaM l) = some l := by
  unfold atobM
  rw [btoaM_no_ws]
  unfold stripPad
  rw [if_pos (btoaM_len_mod l), dropPad_btoaM]
  rw [if_neg (b64Body_len_mod l), b64Quanta_body l h]

/-- The three preview modes of the editor (shared/types.ts). -/
inductive PreviewMode where
  | edit
  | live
  | view
deriving DecidableEq

/-- Code points of the word edit. -/
def editC : List Nat := [0x65, 0x64, 0x69, 0x74]

/-- Code points of the word live. -/
def liveC : List Nat := [0x6C, 0x69, 0x76, 0x65]

/-- Code points of the word view. -/
def viewC : List Nat := [0x76, 0x69, 0x65, 0x77]

/-- Code points of the mode names. -/
def modeCps : PreviewMode → List Nat
  | .edit => editC
  | .live => liveC
  | .view => viewC

/-- Code points of the key content. -/
def contentKeyC : List Nat := [0x63, 0x6F, 0x6E, 0x74, 0x65, 0x6E, 0x74]

/-- Code points of the key mode. -/
def modeKeyC : List Nat := [0x6D, 0x6F, 0x64, 0x65]

/-- A JSON value as produced by JSON.parse.  Number tokens keep their source
    lexeme; strings are code-point lists (a surrogate escape pair denotes one
    astral code point). -/
inductive JVal where
  | jnull
  | jbool (b : Bool)
  | jnum (lexeme : List Nat)
  | jstr (s : List Nat)
  | jarr (items : List JVal)
  | jobj (fields : List (List Nat × JVal))

/-- Lowercase hex digit, as emitted by JSON.stringify unicode escapes. -/
def hexDigitL (n : Nat) : Nat := if n < 10 then 48 + n else 87 + n

/-- JSON.stringify escaping of one string character. -/
def jsonEscChar (c : Nat) : List Nat :=
  if c = 0x22 then [0x5C, 0x22]
  else if c = 0x5C then [0x5C, 0x5C]
  else if c = 0x08 then [0x5C, 0x62]
  else if c = 0x09 then [0x5C, 0x74]
  else if c = 0x0A then [0x5C, 0x6E]
  else if c = 0x0C then [0x5C, 0x66]
  else if c = 0x0D then [0x5C, 0x72]
  else if c < 0x20 then [0x5C, 0x75, 0x30, 0x30, hexDigitL (c / 16), hexDigitL (c % 16)]
  else [c]

/-- Body of a JSON string literal (no surrounding quotes). -/
def jsonQuoteBody (s : List Nat) : List Nat := (s.map jsonEscChar).flatten

/-- A JSON string literal with quotes. -/
def jsonQuote (s : List Nat) : List Nat := 0x22 :: jsonQuoteBody s ++ [0x22]

/-- JSON.stringify of the record with fields content and mode, in insertion
    order, exactly as encodeContent builds it. -/
def stringifyContentMode (text : List Nat) (m : PreviewMode) : List Nat :=
  [0x7B] ++ jsonQuote contentKeyC ++ [0x3A] ++ jsonQuote text ++ [0x2C] ++
    jsonQuote modeKeyC ++ [0x3A] ++ jsonQuote (modeCps m) ++ [0x7D]

/-- JSON whitespace. -/
def jsonWsChar (c : Nat) : Bool := c = 0x20 || c = 0x09 || c = 0x0A || c = 0x0D

/-- Drop leading JSON whitespace. -/
def skipWs : List Nat → List Nat
  | [] => []
  | c :: rest => if jsonWsChar c then skipWs rest else c :: rest

/-- Value of one hex digit character. -/
def hexVal (c : Nat) : Option Nat :=
  if 48 ≤ c ∧ c ≤ 57 then some (c - 48)
  else if 65 ≤ c ∧ c ≤ 70 then some (c - 55)
  else if 97 ≤ c ∧ c ≤ 102 then some (c - 87)
  else none

/-- Value of a four-digit hex escape. -/
def hex4 (a b c d : Nat) : Option Nat :=
  match hexVal a, hexVal b, hexVal c, hexVal d with
  | some va, some vb, some vc, some vd => some (((va * 16 + vb) * 16 + vc) * 16 + vd)
  | _, _, _, _ => none

/-- Single-character JSON string escapes. -/
def escapeMap (e : Nat) : Option Nat :=
  if e = 0x22 then some 0x22
  else if e = 0x5C then some 0x5C
  else if e = 0x2F then some 0x2F
  else if e = 0x62 then some 0x08
  else if e = 0x66 then some 0x0C
  else if e = 0x6E then some 0x0A
  else if e = 0x72 then some 0x0D
  else if e = 0x74 then some 0x09
  else none

/-- Parse a unicode escape after backslash-u: four hex digits, combining a
    high surrogate with an immediately following low surrogate escape into
    one astral code point, as in a JS string viewed as code points. -/
def parseUEscape (l : List Nat) : Option (Nat × List Nat) :=
  match l with
  | h1 :: h2 :: h3 :: h4 :: rest3 =>
    match hex4 h1 h2 h3 h4 with
    | none => none
    | some v =>
      if 0xD800 ≤ v ∧ v ≤ 0xDBFF then
        match rest3 with
        | 0x5C :: 0x75 :: g1 :: g2 :: g3 :: g4 :: rest4 =>
          match hex4 g1 g2 g3 g4 with
          | some w =>
            if 0xDC00 ≤ w ∧ w ≤ 0xDFFF then
              some (0x10000 + (v - 0xD800) * 0x400 + (w - 0xDC00), rest4)
            else some (v, rest3)
          | none => some (v, rest3)
        | _ => some (v, rest3)
      else some (v, rest3)
  | _ => none

/-- One step of JSON string parsing: the closing quote, or one decoded
    character (plain, simple escape, or unicode escape), or a parse error
    (control character, bad escape, end of input). -/
def strStep (l : List Nat) : Option (Option Nat × List Nat) :=
  match l with
  | [] => none
  | c :: rest =>
    if c = 0x22 then some (none, rest)
    else if c = 0x5C then
      match rest with
      | e :: rest2 =>
        if e = 0x75 then
          match parseUEscape rest2 with
          | some (v, r) => some (some v, r)
          | none => none
        else
          match escapeMap e with
          | some ch => some (some ch, rest2)
          | none => none
      | [] => none
    else if c < 0x20 then none
    else some (some c, rest)

theorem parseUEscape_shrink (l : List Nat) (v : Nat) (r : List Nat)
    (h : parseUEscape l = some (v, r)) : r.length + 4 ≤ l.length := by
  unfold parseUEscape at h
  repeat' split at h
  all_goals simp only [Option.some.injEq, Prod.mk.injEq, reduceCtorEq] at h
  all_goals obtain ⟨rfl, rfl⟩ := h
  all_goals simp only [List.length_cons, List.length_nil]
  all_goals omega

theorem strStep_shrink (l : List Nat) (x : Option Nat) (rest : List Nat)
    (h : strStep l = some (x, rest)) : rest.length < l.length := by
  unfold strStep at h
  repeat' split at h
  all_goals simp only [Option.some.injEq, Prod.mk.injEq, reduceCtorEq] at h
  all_goals obtain ⟨rfl, rfl⟩ := h
  all_goals simp only [List.length_cons, List.length_nil]
  all_goals try omega
  all_goals
    rename_i v r hu
    have := parseUEscape_shrink _ v r hu
    omega

/-- Parse the body of a JSON string after the opening quote, returning the
    decoded code points and the input after the closing quote. -/
def parseStrBody (l : List Nat) : Option (List Nat × List Nat) :=
  match h : strStep l with
  | some (none, rest) => some ([], rest)
  | some (some cp, rest) =>
    match parseStrBody rest with
    | some (s, r) => some (cp :: s, r)
    | none => none
  | none => none
termination_by l.length
decreasing_by exact strStep_shrink l _ _ h

/-- Longest leading run of decimal digits. -/
def takeDigits : List Nat → (List Nat × List Nat)
  | [] => ([], [])
  | c :: rest =>
    if 48 ≤ c ∧ c ≤ 57 then
      let p := takeDigits rest
      (c :: p.1, p.2)
    else ([], c :: rest)

/-- Exponent part of a JSON number token (or nothing). -/
def parseExpPart (acc : List Nat) (l : List Nat) : Option (List Nat × List Nat) :=
  match l with
  | e :: rest =>
    if e = 101 ∨ e = 69 then
      match rest with
      | 43 :: r2 =>
        match takeDigits r2 with
        | ([], _) => none
        | (d, r) => some (acc ++ e :: 43 :: d, r)
      | 45 :: r2 =>
        match takeDigits r2 with
        | ([], _) => none
        | (d, r) => some (acc ++ e :: 45 :: d, r)
      | _ =>
        match takeDigits rest with
        | ([], _) => none
        | (d, r) => some (acc ++ e :: d, r)
    else some (acc, e :: rest)
  | [] => some (acc, [])

/-- Fraction then exponent part of a JSON number token. -/
def parseFracPart (acc : List Nat) (l : List Nat) : Option (List Nat × List Nat) :=
  match l with
  | 46 :: rest =>
    match takeDigits rest with
    | ([], _) => none
    | (d, r) => parseExpPart (acc ++ 46 :: d) r
  | _ => parseExpPart acc l

/-- A JSON number token: optional minus, integer part without leading
    zeros, optional fraction, optional exponent. -/
def parseNumTok (l : List Nat) : Option (List Nat × List Nat) :=
  match l with
  | 45 :: rest =>
    match rest with
    | c :: r2 =>
      if c = 48 then parseFracPart [45, 48] r2
      else if 49 ≤ c ∧ c ≤ 57 then
        match takeDigits r2 with
        | (d, r) => parseFracPart (45 :: c :: d) r
      else none
    | [] => none
  | c :: r2 =>
    if c = 48 then parseFracPart [48] r2
    else if 49 ≤ c ∧ c ≤ 57 then
      match takeDigits r2 with
      | (d, r) => parseFracPart (c :: d) r
    else none
  | [] => none

mutual

/-- Parse one JSON value (fuelled; fuel larger than the input length never
    runs out because every recursive step first consumes input). -/
def parseVal : Nat → List Nat → Option (JVal × List Nat)
  | 0, _ => none
  | fuel + 1, l =>
    match skipWs l with
    | [] => none
    | c :: rest =>
      if c = 0x22 then
        match parseStrBody rest with
        | some (s, r) => some (.jstr s, r)
        | none => none
      else if c = 0x7B then
        match skipWs rest with
        | 0x7D :: r2 => some (.jobj [], r2)
        | l2 =>
          match parseMembers fuel l2 with
          | some (fs, r2) => some (.jobj fs, r2)
          | none => none
      else if c = 0x5B then
        match skipWs rest with
        | 0x5D :: r2 => some (.jarr [], r2)
        | l2 =>
          match parseItems fuel l2 with
          | some (vs, r2) => some (.jarr vs, r2)
          | none => none
      else if c = 0x74 then
        match rest with
        | 0x72 :: 0x75 :: 0x65 :: r => some (.jbool true, r)
        | _ => none
      else if c = 0x66 then
        match rest with
        | 0x61 :: 0x6C :: 0x73 :: 0x65 :: r => some (.jbool false, r)
        | _ => none
      else if c = 0x6E then
        match rest with
        | 0x75 :: 0x6C :: 0x6C :: r => some (.jnull, r)
        | _ => none
      else
        match parseNumTok (c :: rest) with
        | some (lex, r) => some (.jnum lex, r)
        | none => none

/-- Parse object members from the first key onwards. -/
def parseMembers : Nat → List Nat → Option (List (List Nat × JVal) × List Nat)
  | 0, _ => none
  | fuel + 1, l =>
    match l with
    | 0x22 :: rest =>
      match parseStrBody rest with
      | some (k, r1) =>
        match skipWs r1 with
        | 0x3A :: r2 =>
          match parseVal fuel r2 with
          | some (v, r3) =>
            match skipWs r3 with
            | 0x2C :: r4 =>
              match parseMembers fuel (skipWs r4) with
              | some (fs, r5) => some ((k, v) :: fs, r5)
              | none => none
            | 0x7D :: r4 => some ([(k, v)], r4)
            | _ => none
          | none => none
        | _ => none
      | none => none
    | _ => none

/-- Parse array items from the first item onwards. -/
def parseItems : Nat → List Nat → Option (List JVal × List Nat)
  | 0, _ => none
  | fuel + 1, l =>
    match parseVal fuel l with
    | some (v, r1) =>
      match skipWs r1 with
      | 0x2C :: r2 =>
        match parseItems fuel r2 with
        | some (vs, r3) => some (v :: vs, r3)
        | none => none
      | 0x5D :: r2 => some ([v], r2)
      | _ => none
    | none => none

end

/-- JSON.parse: parse one value and require only whitespace after it. -/
def jsonParse (l : List Nat) : Option JVal :=
  match parseVal (l.length + 1) l with
  | some (v, rest) => if skipWs rest = [] then some v else none
  | none => none

theorem hexVal_hexDigitL (n : Nat) (h : n < 16) : hexVal (hexDigitL n) = some n := by
  unfold hexDigitL hexVal
  split_ifs <;> first | omega | (simp only [Option.some.injEq]; omega)

theorem skipWs_cons (c : Nat) (l : List Nat) (h : jsonWsChar c = false) :
    skipWs (c :: l) = c :: l := by
  unfold skipWs
  rw [h]
  simp


theorem psb_step (l tail : List Nat) (cp : Nat)
    (h : strStep l = some (some cp, tail)) :
    parseStrBody l =
      match parseStrBody tail with
      | some (s, r) => some (cp :: s, r)
      | none => none := by
  rw [parseStrBody.eq_def]
  split
  · next heq => rw [h] at heq; exact absurd heq (by simp)
  · next cp2 rest2 heq =>
    rw [h] at heq
    simp only [Option.some.injEq, Prod.mk.injEq] at heq
    obtain ⟨rfl, rfl⟩ := heq
    rfl
  · next heq => rw [h] at heq; exact absurd heq (by simp)

theorem psb_end (l tail : List Nat) (h : strStep l = some (none, tail)) :
    parseStrBody l = some ([], tail) := by
  rw [parseStrBody.eq_def]
  split
  · next heq =>
    rw [h] at heq
    simp only [Option.some.injEq, Prod.mk.injEq, true_and] at heq
    subst heq
    rfl
  · next heq => rw [h] at heq; exact absurd heq (by simp)
  · next heq => rw [h] at heq; exact absurd heq (by simp)

theorem strStep_quote (r : List Nat) : strStep (0x22 :: r) = some (none, r) := rfl

theorem strStep_plain (c : Nat) (r : List Nat) (h1 : ¬ c = 0x22)
    (h2 : ¬ c = 0x5C) (h3 : ¬ c < 0x20) : strStep (c :: r) = some (some c, r) := by
  unfold strStep
  simp only [if_neg h1, if_neg h2, if_neg h3]

theorem strStep_esc (e ch : Nat) (r : List Nat) (he : ¬ e = 0x75)
    (hm : escapeMap e = some ch) : strStep (0x5C :: e :: r) = some (some ch, r) := by
  unfold strStep
  simp only [if_neg he, hm]
  norm_num

theorem strStep_hexLow (d1 d2 d3 d4 v : Nat) (r : List Nat)
    (hv : hex4 d1 d2 d3 d4 = some v) (hlow : ¬ (0xD800 ≤ v ∧ v ≤ 0xDBFF)) :
    strStep (0x5C :: 0x75 :: d1 :: d2 :: d3 :: d4 :: r) = some (some v, r) := by
  have hu : parseUEscape (d1 :: d2 :: d3 :: d4 :: r) = some (v, r) := by
    unfold parseUEscape
    simp only [hv, if_neg hlow]
  unfold strStep
  norm_num
  rw [hu]

theorem parseStrBody_escaped (t rest : List Nat) :
    parseStrBody (jsonQuoteBody t ++ 0x22 :: rest) = some (t, rest) := by
  induction t with
  | nil =>
    rw [show jsonQuoteBody [] = [] from rfl, List.nil_append]
    exact psb_end _ rest (strStep_quote rest)
  | cons c t' ih =>
    have hsplit : jsonQuoteBody (c :: t') ++ 0x22 :: rest =
        jsonEscChar c ++ (jsonQuoteBody t' ++ 0x22 :: rest) := by
      simp [jsonQuoteBody]
    rw [hsplit]
    by_cases e22 : c = 0x22
    · subst e22
      rw [show jsonEscChar 0x22 = [0x5C, 0x22] from rfl]
      rw [List.cons_append, List.cons_append, List.nil_append]
      rw [psb_step _ _ _ (strStep_esc 0x22 0x22 _ (by norm_num) rfl), ih]
    · by_cases e5C : c = 0x5C
      · subst e5C
        rw [show jsonEscChar 0x5C = [0x5C, 0x5C] from rfl]
        rw [List.cons_append, List.cons_append, List.nil_append]
        rw [psb_step _ _ _ (strStep_esc 0x5C 0x5C _ (by norm_num) rfl), ih]
      · by_cases e08 : c = 0x08
        · subst e08
          rw [show jsonEscChar 0x08 = [0x5C, 0x62] from rfl]
          rw [List.cons_append, List.cons_append, List.nil_append]
          rw [psb_step _ _ _ (strStep_esc 0x62 0x08 _ (by norm_num) rfl), ih]
        · by_cases e09 : c = 0x09
          · subst e09
            rw [show jsonEscChar 0x09 = [0x5C, 0x74] from rfl]
            rw [List.cons_append, List.cons_append, List.nil_append]
            rw [psb_step _ _ _ (strStep_esc 0x74 0x09 _ (by norm_num) rfl), ih]
          · by_cases e0A : c = 0x0A
            · subst e0A
              rw [show jsonEscChar 0x0A = [0x5C, 0x6E] from rfl]
              rw [List.cons_append, List.cons_append, List.nil_append]
              rw [psb_step _ _ _ (strStep_esc 0x6E 0x0A _ (by norm_num) rfl), ih]
            · by_cases e0C : c = 0x0C
              · subst e0C
                rw [show jsonEscChar 0x0C = [0x5C, 0x66] from rfl]
                rw [List.cons_append, List.cons_append, List.nil_append]
                rw [psb_step _ _ _ (strStep_esc 0x66 0x0C _ (by norm_num) rfl), ih]
              · by_cases e0D : c = 0x0D
                · subst e0D
                  rw [show jsonEscChar 0x0D = [0x5C, 0x72] from rfl]
                  rw [List.cons_append, List.cons_append, List.nil_append]
                  rw [psb_step _ _ _ (strStep_esc 0x72 0x0D _ (by norm_num) rfl), ih]
                · by_cases ectl : c < 0x20
                  · have henc : jsonEscChar c =
                        [0x5C, 0x75, 0x30, 0x30, hexDigitL (c / 16), hexDigitL (c % 16)] := by
                      unfold jsonEscChar
                      rw [if_neg e22, if_neg e5C, if_neg e08, if_neg e09,
                        if_neg e0A, if_neg e0C, if_neg e0D, if_pos ectl]
                    rw [henc]
                    have hhex : hex4 0x30 0x30 (hexDigitL (c / 16)) (hexDigitL (c % 16)) =
                        some c := by
                      unfold hex4
                      rw [show hexVal 0x30 = some 0 from rfl,
                        hexVal_hexDigitL _ (by omega), hexVal_hexDigitL _ (by omega)]
                      simp only [Option.some.injEq]
                      omega
                    rw [List.cons_append, List.cons_append, List.cons_append,
                      List.cons_append, List.cons_append, List.cons_append,
                      List.nil_append]
                    rw [psb_step _ _ _ (strStep_hexLow _ _ _ _ c _ hhex (by omega)), ih]
                  · have henc : jsonEscChar c = [c] := by
                      unfold jsonEscChar
                      rw [if_neg e22, if_neg e5C, if_neg e08, if_neg e09,
                        if_neg e0A, if_neg e0C, if_neg e0D, if_neg ectl]
                    rw [henc, List.cons_append, List.nil_append]
                    rw [psb_step _ _ _ (strStep_plain c _ e22 e5C ectl), ih]

theorem parseVal_str (f : Nat) (l s r : List Nat)
    (h : parseStrBody l = some (s, r)) :
    parseVal (f + 1) (0x22 :: l) = some (.jstr s, r) := by
  have hsw : skipWs (0x22 :: l) = 0x22 :: l :=
    skipWs_cons _ _ (by norm_num [jsonWsChar])
  rw [parseVal.eq_def]
  simp only []
  simp only [hsw, h]
  norm_num

theorem parseVal_objStep (f : Nat) (l l' : List Nat)
    (hsk : skipWs l = 0x22 :: l') (fs : List (List Nat × JVal)) (r : List Nat)
    (hm : parseMembers f (0x22 :: l') = some (fs, r)) :
    parseVal (f + 1) (0x7B :: l) = some (.jobj fs, r) := by
  have hsw : skipWs (0x7B :: l) = 0x7B :: l :=
    skipWs_cons _ _ (by norm_num [jsonWsChar])
  rw [parseVal.eq_def]
  simp only []
  simp only [hsw, hsk, hm]
  norm_num

theorem parseMembers_last (f : Nat) (l r1 r2 r3 r4 : List Nat) (k : List Nat)
    (v : JVal) (h1 : parseStrBody l = some (k, r1))
    (h2 : skipWs r1 = 0x3A :: r2) (h3 : parseVal f r2 = some (v, r3))
    (h4 : skipWs r3 = 0x7D :: r4) :
    parseMembers (f + 1) (0x22 :: l) = some ([(k, v)], r4) := by
  rw [parseMembers.eq_def]
  simp only []
  simp only [h1, h2, h3, h4]

theorem parseMembers_more (f : Nat) (l r1 r2 r3 r4 r5 : List Nat) (k : List Nat)
    (v : JVal) (fs : List (List Nat × JVal))
    (h1 : parseStrBody l = some (k, r1))
    (h2 : skipWs r1 = 0x3A :: r2) (h3 : parseVal f r2 = some (v, r3))
    (h4 : skipWs r3 = 0x2C :: r4)
    (h5 : parseMembers f (skipWs r4) = some (fs, r5)) :
    parseMembers (f + 1) (0x22 :: l) = some ((k, v) :: fs, r5) := by
  rw [parseMembers.eq_def]
  simp only []
  simp only [h1, h2, h3, h4, h5]

theorem parseVal_stringify (f : Nat) (t : List Nat) (m : PreviewMode) :
    parseVal (f + 4) (stringifyContentMode t m) =
      some (.jobj [(contentKeyC, .jstr t), (modeKeyC, .jstr (modeCps m))], []) := by
  have hsk22 : ∀ l : List Nat, skipWs (0x22 :: l) = 0x22 :: l := fun l =>
    skipWs_cons _ _ (by norm_num [jsonWsChar])
  have hsk3A : ∀ l : List Nat, skipWs (0x3A :: l) = 0x3A :: l := fun l =>
    skipWs_cons _ _ (by norm_num [jsonWsChar])
  have hsk2C : ∀ l : List Nat, skipWs (0x2C :: l) = 0x2C :: l := fun l =>
    skipWs_cons _ _ (by norm_num [jsonWsChar])
  have hsk7D : ∀ l : List Nat, skipWs (0x7D :: l) = 0x7D :: l := fun l =>
    skipWs_cons _ _ (by norm_num [jsonWsChar])
  have hshape : stringifyContentMode t m =
      0x7B :: 0x22 :: (jsonQuoteBody contentKeyC ++ 0x22 ::
        (0x3A :: 0x22 :: (jsonQuoteBody t ++ 0x22 ::
          (0x2C :: 0x22 :: (jsonQuoteBody modeKeyC ++ 0x22 ::
            (0x3A :: 0x22 :: (jsonQuoteBody (modeCps m) ++ 0x22 :: [0x7D]))))))) := by
    simp [stringifyContentMode, jsonQuote]
  set L4 : List Nat := jsonQuoteBody (modeCps m) ++ 0x22 :: [0x7D] with hL4
  set L3 : List Nat := jsonQuoteBody modeKeyC ++ 0x22 :: (0x3A :: 0x22 :: L4) with hL3
  set L2 : List Nat := jsonQuoteBody t ++ 0x22 :: (0x2C :: 0x22 :: L3) with hL2
  set L1 : List Nat := jsonQuoteBody contentKeyC ++ 0x22 :: (0x3A :: 0x22 :: L2) with hL1
  have hval2 : parseVal (f + 1) (0x22 :: L4) = some (.jstr (modeCps m), [0x7D]) :=
    parseVal_str f _ _ _ (parseStrBody_escaped _ _)
  have hmem2 : parseMembers (f + 2) (0x22 :: L3) =
      some ([(modeKeyC, .jstr (modeCps m))], []) := by
    refine parseMembers_last (f + 1) _ _ _ _ _ _ _
      (parseStrBody_escaped _ _) (hsk3A _) hval2 ?_
    exact hsk7D []
  have hval1 : parseVal (f + 2) (0x22 :: L2) = some (.jstr t, 0x2C :: 0x22 :: L3) :=
    parseVal_str (f + 1) _ _ _ (parseStrBody_escaped _ _)
  have hmem1 : parseMembers (f + 3) (0x22 :: L1) =
      some ([(contentKeyC, .jstr t), (modeKeyC, .jstr (modeCps m))], []) := by
    refine parseMembers_more (f + 2) _ _ _ _ _ _ _ _ _
      (parseStrBody_escaped _ _) (hsk3A _) hval1 (hsk2C _) ?_
    rw [hsk22 L3]
    exact hmem2
  rw [hshape]
  exact parseVal_objStep (f + 3) _ _ (hsk22 L1) _ _ hmem1

theorem stringify_len (t : List Nat) (m : PreviewMode) :
    13 ≤ (stringifyContentMode t m).length := by
  simp only [stringifyContentMode, jsonQuote, List.length_append,
    List.length_cons, List.length_singleton]
  omega

/-- JSON.parse accepts the serialized content record and returns exactly the
    two-field object. -/
theorem jsonParse_stringify (t : List Nat) (m : PreviewMode) :
    jsonParse (stringifyContentMode t m) =
      some (.jobj [(contentKeyC, .jstr t), (modeKeyC, .jstr (modeCps m))]) := by
  unfold jsonParse
  have hlen : (stringifyContentMode t m).length + 1 =
      ((stringifyContentMode t m).length - 3) + 4 := by
    have := stringify_len t m
    omega
  rw [hlen, parseVal_stringify]
  simp [skipWs]

/-- Look up a field, later duplicates winning, as in a JS object built by
    JSON.parse. -/
def jlookup (fields : List (List Nat × JVal)) (k : List Nat) : Option JVal :=
  fields.foldl (fun acc f => if f.1 = k then some f.2 else acc) none

/-- The in operator: does the parsed object have this property. -/
def hasKeyB (fields : List (List Nat × JVal)) (k : List Nat) : Bool :=
  fields.any (fun f => f.1 == k)

/-- Does a JSON number lexeme denote zero: every mantissa digit is 0. -/
def numIsZero (lex : List Nat) : Bool :=
  (lex.takeWhile (fun c => !(c == 101 || c == 69))).all
    (fun c => c == 48 || c == 45 || c == 46)

/-- JS truthiness of a JSON value. -/
def jsTruthy : JVal → Bool
  | .jnull => false
  | .jbool b => b
  | .jnum lex => !numIsZero lex
  | .jstr s => !s.isEmpty
  | .jarr _ => true
  | .jobj _ => true

/-- The record decodeContent returns: the dynamic values of the content and
    mode properties, exactly as the untyped JS code produces them. -/
structure DecodedState where
  content : JVal
  mode : JVal

/-- The default empty document state. -/
def defaultDecoded : DecodedState := ⟨.jstr [], .jstr editC⟩

/-- JS expression v or default, for the patterns data.content or-empty and
    data.mode or-edit. -/
def jsOr (v : Option JVal) (d : JVal) : JVal :=
  match v with
  | none => d
  | some x => if jsTruthy x then x else d

/-- The JSON-or-legacy dispatch of decodeContent on the decompressed text:
    a parsed object with a content property yields the structured record;
    everything else (parse failure, non-object, object without content)
    falls back to treating the whole text as legacy plain content. -/
def jsonDispatch (js : List Nat) : DecodedState :=
  match jsonParse js with
  | some (.jobj fields) =>
    if hasKeyB fields contentKeyC then
      ⟨jsOr (jlookup fields contentKeyC) (.jstr []),
        jsOr (jlookup fields modeKeyC) (.jstr editC)⟩
    else ⟨.jstr js, .jstr editC⟩
  | some _ => ⟨.jstr js, .jstr editC⟩
  | none => ⟨.jstr js, .jstr editC⟩

/-- The injected compression capability (the platform gzip
    CompressionStream and DecompressionStream pair); decompress returns
    none where the stream would error on corrupt input. -/
structure Compressor where
  compress : List Nat → List Nat
  decompress : List Nat → Option (List Nat)

/-- encodeContent from the editor component: the empty-edit sentinel, then
    JSON.stringify, TextEncoder, gzip, btoa. -/
def encodeContent (Z : Compressor) (text : List Nat) (mode : PreviewMode) :
    List Nat :=
  if text = [] ∧ mode = PreviewMode.edit then []
  else btoaM (Z.compress (utf8Encode (stringifyContentMode text mode)))

/-- decodeContent from the editor component: empty input gives the default
    state; atob, gunzip, TextDecoder, then JSON-or-legacy dispatch; any
    transport or decompression failure degrades to the default state. -/
def decodeContent (Z : Compressor) (enc : List Nat) : DecodedState :=
  if enc = [] then defaultDecoded
  else
    match atobM enc with
    | none => defaultDecoded
    | some bytes =>
      match Z.decompress bytes with
      | none => defaultDecoded
      | some dbytes => jsonDispatch (utf8DecodeLossy dbytes)

theorem jsonEscChar_valid (x c : Nat) (hx : ValidScalar x)
    (hc : c ∈ jsonEscChar x) : ValidScalar c := by
  unfold jsonEscChar hexDigitL at hc
  unfold ValidScalar at hx ⊢
  split_ifs at hc <;>
    simp only [List.mem_cons, List.not_mem_nil, or_false] at hc <;>
    omega

theorem stringify_valid (t : List Nat) (m : PreviewMode)
    (hv : ∀ c ∈ t, ValidScalar c) :
    ∀ c ∈ stringifyContentMode t m, ValidScalar c := by
  intro c hc
  simp only [stringifyContentMode, jsonQuote, jsonQuoteBody, List.mem_append,
    List.mem_cons, List.cons_append, List.nil_append, List.append_assoc,
    List.mem_singleton, List.not_mem_nil, or_false] at hc
  have hlit : ∀ x : Nat, x < 0x80 → ValidScalar x := by
    intro x hx
    unfold ValidScalar
    omega
  have hbody : ∀ s : List Nat, (∀ x ∈ s, ValidScalar x) →
      c ∈ (s.map jsonEscChar).flatten → ValidScalar c := by
    intro s hs hmem
    rw [List.mem_flatten] at hmem
    obtain ⟨lsub, hl, hcl⟩ := hmem
    rw [List.mem_map] at hl
    obtain ⟨x, hxs, rfl⟩ := hl
    exact jsonEscChar_valid x c (hs x hxs) hcl
  have hck : ∀ x ∈ contentKeyC, ValidScalar x := by
    intro x hx
    unfold contentKeyC at hx
    fin_cases hx <;> exact hlit _ (by norm_num)
  have hmk : ∀ x ∈ modeKeyC, ValidScalar x := by
    intro x hx
    unfold modeKeyC at hx
    fin_cases hx <;> exact hlit _ (by norm_num)
  have hmo : ∀ x ∈ modeCps m, ValidScalar x := by
    intro x hx
    cases m <;> unfold modeCps editC liveC viewC at hx <;>
      fin_cases hx <;> exact hlit _ (by norm_num)
  rcases hc with rfl | rfl | hc | rfl | rfl | rfl | hc | rfl | rfl | rfl | hc | rfl | rfl | rfl | hc | rfl | rfl
  all_goals
    first
      | exact hbody _ hck hc
      | exact hbody _ hv hc
      | exact hbody _ hmk hc
      | exact hbody _ hmo hc
      | exact hlit _ (by norm_num)

theorem utf8EncodeChar_lt256 (c : Nat) (h : ValidScalar c) :
    ∀ b ∈ utf8EncodeChar c, b < 256 := by
  intro b hb
  obtain ⟨hlt, _⟩ := h
  unfold utf8EncodeChar at hb
  split_ifs at hb <;>
    simp only [List.mem_cons, List.not_mem_nil, or_false] at hb <;>
    omega

theorem utf8Encode_lt256 (s : List Nat) (h : ∀ c ∈ s, ValidScalar c) :
    ∀ b ∈ utf8Encode s, b < 256 := by
  intro b hb
  unfold utf8Encode at hb
  rw [List.mem_flatten] at hb
  obtain ⟨lsub, hl, hbl⟩ := hb
  rw [List.mem_map] at hl
  obtain ⟨x, hxs, rfl⟩ := hl
  exact utf8EncodeChar_lt256 x (h x hxs) b hbl

theorem stringify_head (t : List Nat) (m : PreviewMode) :
    (stringifyContentMode t m).head? = some 0x7B := by
  simp [stringifyContentMode]

/-- Core codec round trip: decoding an encoded non-sentinel state yields
    the original text and mode, for any compressor that inverts itself,
    emits bytes, and never returns an empty compressed stream. -/
theorem decode_encode_rt (Z : Compressor)
    (hrt : ∀ b, Z.decompress (Z.compress b) = some b)
    (hbyte : ∀ b, (∀ x ∈ b, x < 256) → ∀ x ∈ Z.compress b, x < 256)
    (hne : ∀ b, Z.compress b ≠ [])
    (text : List Nat) (mode : PreviewMode)
    (hv : ∀ c ∈ text, ValidScalar c)
    (hcase : ¬ (text = [] ∧ mode = PreviewMode.edit)) :
    decodeContent Z (encodeContent Z text mode) =
      ⟨.jstr text, .jstr (modeCps mode)⟩ := by
  have henc : encodeContent Z text mode =
      btoaM (Z.compress (utf8Encode (stringifyContentMode text mode))) := by
    unfold encodeContent
    rw [if_neg hcase]
  set js : List Nat := stringifyContentMode text mode with hjs
  set bytes : List Nat := Z.compress (utf8Encode js) with hbytes
  have hnonempty : btoaM bytes ≠ [] := btoaM_ne_nil _ (hne _)
  have hatob : atobM (btoaM bytes) = some bytes :=
    atobM_btoaM _ (hbyte _ (utf8Encode_lt256 _ (stringify_valid text mode hv)))
  have hlossy : utf8DecodeLossy (utf8Encode js) = js := by
    apply utf8DecodeLossy_encode
    · exact stringify_valid text mode hv
    · rw [stringify_head]
      norm_num
  have hparse : jsonParse js =
      some (.jobj [(contentKeyC, .jstr text), (modeKeyC, .jstr (modeCps mode))]) :=
    jsonParse_stringify text mode
  rw [henc]
  unfold decodeContent
  rw [if_neg hnonempty, hatob]
  simp only []
  rw [hbytes, hrt]
  simp only []
  rw [hlossy]
  unfold jsonDispatch
  rw [hparse]
  have hkey : hasKeyB [(contentKeyC, JVal.jstr text),
      (modeKeyC, JVal.jstr (modeCps mode))] contentKeyC = true := by
    simp [hasKeyB]
  simp only []
  rw [if_pos hkey]
  have hlook1 : jlookup [(contentKeyC, JVal.jstr text),
      (modeKeyC, JVal.jstr (modeCps mode))] contentKeyC = some (.jstr text) := by
    simp [jlookup, contentKeyC, modeKeyC]
  have hlook2 : jlookup [(contentKeyC, JVal.jstr text),
      (modeKeyC, JVal.jstr (modeCps mode))] modeKeyC =
      some (.jstr (modeCps mode)) := by
    simp [jlookup, contentKeyC, modeKeyC]
  rw [hlook1, hlook2]
  have hmode : jsOr (some (JVal.jstr (modeCps mode))) (JVal.jstr editC) =
      JVal.jstr (modeCps mode) := by
    cases mode <;> rfl
  rw [hmode]
  rcases Decidable.em (text = []) with hteq | htne
  · subst hteq
    rfl
  · have hfalse : text.isEmpty = false := by
      simp [List.isEmpty_iff, htne]
    have : jsOr (some (JVal.jstr text)) (JVal.jstr []) = JVal.jstr text := by
      simp [jsOr, jsTruthy, hfalse]
    rw [this]

/-- A minimal concrete compressor used to instantiate witnesses: it tags
    the payload with the two gzip magic bytes; decompression rejects any
    stream that does not carry the tag, as gunzip rejects non-gzip data. -/
def gzipToy : Compressor where
  compress b := 31 :: 139 :: b
  decompress l :=
    match l with
    | 31 :: 139 :: b => some b
    | _ => none

theorem gzipToy_rt (b : List Nat) : gzipToy.decompress (gzipToy.compress b) = some b := rfl

theorem gzipToy_bytes (b : List Nat) (hb : ∀ x ∈ b, x < 256) :
    ∀ x ∈ gzipToy.compress b, x < 256 := by
  intro x hx
  simp only [gzipToy, List.mem_cons] at hx
  rcases hx with rfl | rfl | hx
  · omega
  · omega
  · exact hb x hx

theorem gzipToy_ne (b : List Nat) : gzipToy.compress b ≠ [] := by
  simp [gzipToy]

/-- Characters allowed in a URI fragment by RFC 3986: unreserved,
    sub-delims, colon, at-sign, slash and question mark. -/
def IsUrlFragmentChar (c : Nat) : Prop :=
  (48 ≤ c ∧ c ≤ 57) ∨ (65 ≤ c ∧ c ≤ 90) ∨ (97 ≤ c ∧ c ≤ 122) ∨
    c = 45 ∨ c = 46 ∨ c = 95 ∨ c = 126 ∨ c = 33 ∨ c = 36 ∨ c = 38 ∨
    c = 39 ∨ c = 40 ∨ c = 41 ∨ c = 42 ∨ c = 43 ∨ c = 44 ∨ c = 59 ∨
    c = 61 ∨ c = 58 ∨ c = 64 ∨ c = 47 ∨ c = 63

instance (c : Nat) : Decidable (IsUrlFragmentChar c) := by
  unfold IsUrlFragmentChar
  infer_instance

/-- C1: for every pair (text, mode) other than the empty-edit sentinel,
    decoding the result of encoding yields exactly the original content and
    mode, for any self-inverting byte-producing compressor; text ranges
    over strings of Unicode scalar values. -/
theorem C1_round_trip (Z : Compressor)
    (hrt : ∀ b, Z.decompress (Z.compress b) = some b)
    (hbyte : ∀ b, (∀ x ∈ b, x < 256) → ∀ x ∈ Z.compress b, x < 256)
    (hne : ∀ b, Z.compress b ≠ [])
    (text : List Nat) (mode : PreviewMode)
    (hv : ∀ c ∈ text, ValidScalar c)
    (hcase : ¬ (text = [] ∧ mode = PreviewMode.edit)) :
    decodeContent Z (encodeContent Z text mode) =
      ⟨.jstr text, .jstr (modeCps mode)⟩ :=
  decode_encode_rt Z hrt hbyte hne text mode hv hcase

theorem C1_round_trip_witness :
    decodeContent gzipToy (encodeContent gzipToy [0x68, 0x69] PreviewMode.live) =
      ⟨.jstr [0x68, 0x69], .jstr (modeCps PreviewMode.live)⟩ :=
  C1_round_trip gzipToy gzipToy_rt gzipToy_bytes gzipToy_ne [0x68, 0x69]
    PreviewMode.live (by decide) (by decide)

/-- C3: decodeContent never propagates an error: input that atob rejects,
    or whose bytes the decompressor rejects, decodes to the default empty
    edit state. -/
theorem C3_corrupt_safe (Z : Compressor) (enc : List Nat) :
    (atobM enc = none → decodeContent Z enc = defaultDecoded) ∧
    (∀ bytes, atobM enc = some bytes → Z.decompress bytes = none →
      decodeContent Z enc = defaultDecoded) := by
  constructor
  · intro hatob
    unfold decodeContent
    split_ifs with h
    · rfl
    · rw [hatob]
  · intro bytes hsome hdec
    unfold decodeContent
    split_ifs with h
    · rfl
    · rw [hsome]
      simp only []
      rw [hdec]

theorem C3_corrupt_safe_witness :
    decodeContent gzipToy
      [110, 111, 116, 45, 118, 97, 108, 105, 100, 45, 98, 97, 115, 101,
        54, 52, 33] = defaultDecoded ∧
    decodeContent gzipToy [100, 71, 86, 122, 100, 65, 61, 61] = defaultDecoded := by
  constructor
  · exact (C3_corrupt_safe gzipToy _).1 (by decide)
  · exact (C3_corrupt_safe gzipToy _).2 [116, 101, 115, 116] (by decide) rfl

/-- C6: the empty sentinel holds exactly for the default state: empty text
    in edit mode encodes to the empty string, the empty string decodes to
    the default state, and empty text in a non-edit mode encodes to a
    non-empty payload that decodes back to empty text with that mode. -/
theorem C6_empty_sentinel (Z : Compressor)
    (hrt : ∀ b, Z.decompress (Z.compress b) = some b)
    (hbyte : ∀ b, (∀ x ∈ b, x < 256) → ∀ x ∈ Z.compress b, x < 256)
    (hne : ∀ b, Z.compress b ≠ []) :
    encodeContent Z [] PreviewMode.edit = [] ∧
    decodeContent Z [] = defaultDecoded ∧
    (∀ m : PreviewMode, m ≠ PreviewMode.edit → encodeContent Z [] m ≠ []) ∧
    (∀ m : PreviewMode, m ≠ PreviewMode.edit →
      decodeContent Z (encodeContent Z [] m) = ⟨.jstr [], .jstr (modeCps m)⟩) := by
  refine ⟨rfl, rfl, ?_, ?_⟩
  · intro m hm
    unfold encodeContent
    rw [if_neg (by simp [hm])]
    exact btoaM_ne_nil _ (hne _)
  · intro m hm
    exact decode_encode_rt Z hrt hbyte hne [] m (by simp) (by simp [hm])

theorem C6_empty_sentinel_witness :
    encodeContent gzipToy [] PreviewMode.edit = [] ∧
    decodeContent gzipToy [] = defaultDecoded ∧
    encodeContent gzipToy [] PreviewMode.view ≠ [] ∧
    decodeContent gzipToy (encodeContent gzipToy [] PreviewMode.view) =
      ⟨.jstr [], .jstr (modeCps PreviewMode.view)⟩ := by
  have h := C6_empty_sentinel gzipToy gzipToy_rt gzipToy_bytes gzipToy_ne
  exact ⟨h.1, h.2.1, h.2.2.1 PreviewMode.view (by decide),
    h.2.2.2 PreviewMode.view (by decide)⟩

/-- C7 counterexample: the claim quantifies over every plain-text string;
    for the plain text consisting of the thirty characters of a serialized
    content record (open brace, quoted content key, colon, quoted hi, comma,
    quoted mode key, colon, quoted live, close brace), decoding the base64
    of the gzip of that text yields content hi with mode live, not the
    original text with mode edit: structured parsing succeeds on it. -/
theorem C7_legacy_counterexample :
    decodeContent gzipToy (btoaM (gzipToy.compress (utf8Encode
      [0x7B, 34, 99, 111, 110, 116, 101, 110, 116, 34, 58, 34, 104, 105, 34,
        44, 34, 109, 111, 100, 101, 34, 58, 34, 108, 105, 118, 101, 34, 0x7D]))) =
      ⟨.jstr [104, 105], .jstr liveC⟩ ∧
    (([104, 105] : List Nat) ≠
      [0x7B, 34, 99, 111, 110, 116, 101, 110, 116, 34, 58, 34, 104, 105, 34,
        44, 34, 109, 111, 100, 101, 34, 58, 34, 108, 105, 118, 101, 34, 0x7D]) ∧
    liveC ≠ editC := by
  refine ⟨?_, by decide, by decide⟩
  have h1 : ([0x7B, 34, 99, 111, 110, 116, 101, 110, 116, 34, 58, 34, 104,
      105, 34, 44, 34, 109, 111, 100, 101, 34, 58, 34, 108, 105, 118, 101,
      34, 0x7D] : List Nat) =
      stringifyContentMode [104, 105] PreviewMode.live := by decide
  rw [h1]
  have h2 : btoaM (gzipToy.compress (utf8Encode
      (stringifyContentMode [104, 105] PreviewMode.live))) =
      encodeContent gzipToy [104, 105] PreviewMode.live := by
    unfold encodeContent
    rw [if_neg (by decide)]
  rw [h2]
  have h3 := decode_encode_rt gzipToy gzipToy_rt gzipToy_bytes gzipToy_ne
    [104, 105] PreviewMode.live (by decide) (by decide)
  exact h3

/-- C7 amended: a legacy payload (base64 of gzip of raw text, no JSON
    wrapper) decodes to that text with mode edit whenever the text does not
    itself parse as a JSON object carrying a content member; the text must
    be made of scalar values and not start with U+FEFF, which the UTF-8
    byte-order-mark stripping of TextDecoder would remove. -/
theorem C7_legacy_decode (Z : Compressor)
    (hrt : ∀ b, Z.decompress (Z.compress b) = some b)
    (hbyte : ∀ b, (∀ x ∈ b, x < 256) → ∀ x ∈ Z.compress b, x < 256)
    (hne : ∀ b, Z.compress b ≠ [])
    (t : List Nat) (hv : ∀ c ∈ t, ValidScalar c)
    (hbom : t.head? ≠ some 0xFEFF)
    (hnj : ∀ fields, jsonParse t = some (.jobj fields) →
      hasKeyB fields contentKeyC = false) :
    decodeContent Z (btoaM (Z.compress (utf8Encode t))) =
      ⟨.jstr t, .jstr editC⟩ := by
  have hnonempty : btoaM (Z.compress (utf8Encode t)) ≠ [] :=
    btoaM_ne_nil _ (hne _)
  have hatob : atobM (btoaM (Z.compress (utf8Encode t))) =
      some (Z.compress (utf8Encode t)) :=
    atobM_btoaM _ (hbyte _ (utf8Encode_lt256 _ hv))
  unfold decodeContent
  rw [if_neg hnonempty, hatob]
  simp only []
  rw [hrt]
  simp only []
  rw [utf8DecodeLossy_encode t hv hbom]
  unfold jsonDispatch
  rcases hp : jsonParse t with _ | v
  · rfl
  · cases v with
    | jobj fields =>
      simp only []
      rw [if_neg (by rw [hnj fields hp]; simp)]
    | jnull => rfl
    | jbool b => rfl
    | jnum lex => rfl
    | jstr s => rfl
    | jarr items => rfl

theorem C7_legacy_decode_witness :
    decodeContent gzipToy (btoaM (gzipToy.compress (utf8Encode
      [112, 108, 97, 105, 110, 32, 116, 101, 120, 116]))) =
      ⟨.jstr [112, 108, 97, 105, 110, 32, 116, 101, 120, 116], .jstr editC⟩ := by
  refine C7_legacy_decode gzipToy gzipToy_rt gzipToy_bytes gzipToy_ne
    [112, 108, 97, 105, 110, 32, 116, 101, 120, 116] (by decide) (by decide) ?_
  intro fields hf
  rw [show jsonParse [112, 108, 97, 105, 110, 32, 116, 101, 120, 116] = none
    from rfl] at hf
  exact absurd hf (by simp)

/-- C8: every character of a payload encodeContent produces lies in the
    base64 alphabet btoa emits (letters, digits, plus, slash, equals), each
    of which is a legal URI-fragment character and is not a line break. -/
theorem C8_payload_alphabet (Z : Compressor) (text : List Nat)
    (mode : PreviewMode) :
    ∀ c ∈ encodeContent Z text mode,
      IsB64OutChar c ∧ IsUrlFragmentChar c ∧ c ≠ 0x0A ∧ c ≠ 0x0D := by
  intro c hc
  unfold encodeContent at hc
  split_ifs at hc
  · exact absurd hc (by simp)
  · have hch := btoaM_chars _ c hc
    unfold IsB64OutChar at hch
    refine ⟨by unfold IsB64OutChar; omega, by unfold IsUrlFragmentChar; omega,
      by omega, by omega⟩

theorem C8_payload_alphabet_witness :
    IsB64OutChar ((encodeContent gzipToy [104] PreviewMode.edit).headD 0) ∧
    IsUrlFragmentChar ((encodeContent gzipToy [104] PreviewMode.edit).headD 0) ∧
    (encodeContent gzipToy [104] PreviewMode.edit).headD 0 ≠ 0x0A ∧
    (encodeContent gzipToy [104] PreviewMode.edit).headD 0 ≠ 0x0D :=
  C8_payload_alphabet gzipToy [104] PreviewMode.edit _ (by decide)

/-- Safe URL length limit from the editor component. -/
def MAX_URL_LENGTH : Nat := 2048

/-- Math.round of the percentage n over m: floor of n / m + one half. -/
def mathRoundPct (n m : Nat) : Nat := (2 * n + m) / (2 * m)

/-- Coerce the dynamic decoded content to the string the typed code
    assigns; all states the theorems below exercise carry string values. -/
def expectStr : JVal → List Nat
  | .jstr s => s
  | _ => []

/-- Is the dynamic value exactly the string edit (the strict inequality
    test decodedData.mode !== 'edit' is its negation). -/
def jvalIsEditStr : JVal → Bool
  | .jstr s => s == editC
  | _ => false

/-- Coerce the dynamic decoded mode to the PreviewMode the typed code
    assigns; all states the theorems below exercise carry one of the three
    mode strings. -/
def expectMode : JVal → PreviewMode
  | .jstr s => if s == liveC then .live else if s == viewC then .view else .edit
  | _ => .edit

/-- The mutable controller state of the editor component: the current and
    last-saved document, the render mode, the dirty flag, the armed
    debounce timer with the content captured when it was armed, the
    location hash, a count of history entries pushed, and the usage
    feedback. -/
structure EditorState where
  currentContent : List Nat
  lastSavedContent : List Nat
  lastSavedMode : PreviewMode
  previewMode : PreviewMode
  markdownValue : List Nat
  hasUnsaved : Bool
  timer : Option (List Nat)
  hash : List Nat
  historyCount : Nat
  usagePercentage : Nat
  isLimitReached : Bool
deriving DecidableEq

/-- The state on first load of an empty document. -/
def initialState : EditorState :=
  ⟨[], [], .edit, .edit, [], false, none, [], 0, 0, false⟩

/-- saveToUrl: encode under the current preview mode, measure the budget,
    and if within it push a new hash only when it differs from the current
    one, then record the save and clear the dirty flag; over budget, only
    the limit flag is raised. -/
def saveToUrl (Z : Compressor) (content : List Nat) (s : EditorState) :
    EditorState :=
  let currentMode := s.previewMode
  let encoded := encodeContent Z content currentMode
  let urlLength := encoded.length + 1
  let s1 := {s with usagePercentage := mathRoundPct (urlLength * 100) MAX_URL_LENGTH,
                    isLimitReached := decide (urlLength > MAX_URL_LENGTH)}
  if urlLength ≤ MAX_URL_LENGTH then
    let s2 := if s1.hash ≠ encoded then
        {s1 with hash := encoded, historyCount := s1.historyCount + 1}
      else s1
    {s2 with lastSavedContent := content, lastSavedMode := currentMode,
             hasUnsaved := false}
  else
    {s1 with isLimitReached := true}

/-- debouncedSave: cancel any armed timer and arm a new one capturing the
    content passed in. -/
def debouncedSave (content : List Nat) (s : EditorState) : EditorState :=
  {s with timer := some content}

/-- The armed debounce timer fires: if the dirty flag is still set, run
    saveToUrl on the content captured when the timer was armed. -/
def timerFire (Z : Compressor) (s : EditorState) : EditorState :=
  match s.timer with
  | none => s
  | some c =>
    let s1 := {s with timer := none}
    if s1.hasUnsaved then saveToUrl Z c s1 else s1

/-- saveImmediately: cancel any pending timer; save the given content (or
    the current content when none is given) only when the dirty flag is set
    and that content is truthy, that is, non-empty. -/
def saveImmediately (Z : Compressor) (content : Option (List Nat))
    (s : EditorState) : EditorState :=
  let s1 := {s with timer := none}
  let contentToSave := content.getD s1.currentContent
  if s1.hasUnsaved ∧ contentToSave ≠ [] then saveToUrl Z contentToSave s1
  else s1

/-- handleContentChange: update the visible value and the current-content
    reference; when the content or mode differs from the last saved pair,
    set the dirty flag, refresh the usage feedback, and arm the debounce
    timer capturing this content. -/
def handleContentChange (Z : Compressor) (value : Option (List Nat))
    (s : EditorState) : EditorState :=
  let content := value.getD []
  let s1 := {s with markdownValue := content, currentContent := content}
  if content ≠ s1.lastSavedContent ∨ s1.previewMode ≠ s1.lastSavedMode then
    let urlLength := (encodeContent Z content s1.previewMode).length + 1
    {s1 with hasUnsaved := true,
             usagePercentage := mathRoundPct (urlLength * 100) MAX_URL_LENGTH,
             isLimitReached := decide (urlLength > MAX_URL_LENGTH),
             timer := some content}
  else s1

/-- handlePopState: the browser has already moved the location to the new
    hash.  A non-empty hash is decoded; only when the decoded state is
    non-default (truthy content or mode other than edit) is everything
    overwritten and the dirty flag cleared.  An empty hash resets to the
    default document.  No branch touches the armed timer. -/
def handlePopState (Z : Compressor) (newHash : List Nat) (s : EditorState) :
    EditorState :=
  let s0 := {s with hash := newHash}
  if newHash ≠ [] then
    let d := decodeContent Z newHash
    if jsTruthy d.content || !(jvalIsEditStr d.mode) then
      let urlLength :=
        (encodeContent Z (expectStr d.content) (expectMode d.mode)).length + 1
      {s0 with markdownValue := expectStr d.content,
               previewMode := expectMode d.mode,
               currentContent := expectStr d.content,
               lastSavedContent := expectStr d.content,
               lastSavedMode := expectMode d.mode,
               hasUnsaved := false,
               usagePercentage := mathRoundPct (urlLength * 100) MAX_URL_LENGTH,
               isLimitReached := decide (urlLength > MAX_URL_LENGTH)}
    else s0
  else
    {s0 with markdownValue := [], previewMode := .edit, currentContent := [],
             lastSavedContent := [], lastSavedMode := .edit,
             hasUnsaved := false, usagePercentage := 0, isLimitReached := false}

theorem saveToUrl_within (Z : Compressor) (c : List Nat) (s : EditorState)
    (h : (encodeContent Z c s.previewMode).length + 1 ≤ MAX_URL_LENGTH) :
    (saveToUrl Z c s).lastSavedContent = c ∧
    (saveToUrl Z c s).lastSavedMode = s.previewMode ∧
    (saveToUrl Z c s).hasUnsaved = false := by
  simp only [saveToUrl]
  rw [if_pos h]
  split_ifs <;> simp

theorem hcc_frame (Z : Compressor) (v : Option (List Nat)) (s : EditorState) :
    (handleContentChange Z v s).lastSavedContent = s.lastSavedContent ∧
    (handleContentChange Z v s).lastSavedMode = s.lastSavedMode ∧
    (handleContentChange Z v s).previewMode = s.previewMode ∧
    (handleContentChange Z v s).hash = s.hash ∧
    (handleContentChange Z v s).currentContent = v.getD [] := by
  simp only [handleContentChange]
  split_ifs <;> simp

theorem hcc_armed (Z : Compressor) (v : Option (List Nat)) (s : EditorState)
    (h : v.getD [] ≠ s.lastSavedContent ∨ s.previewMode ≠ s.lastSavedMode) :
    (handleContentChange Z v s).timer = some (v.getD []) ∧
    (handleContentChange Z v s).hasUnsaved = true := by
  simp only [handleContentChange]
  rw [if_pos h]
  simp

/-- C2 counterexample: typing a, then deleting back to the last-saved empty
    document, then letting the armed timer fire, persists a — the content
    captured when the timer was armed — although the ContentState current
    at the moment the commit executes is empty.  The commit does not read
    the latest value, and two rapid mutations followed by one commit do not
    persist the last mutation. -/
theorem C2_latest_counterexample :
    (timerFire gzipToy (handleContentChange gzipToy (some [])
      (handleContentChange gzipToy (some [97]) initialState))).lastSavedContent
      = [97] ∧
    (timerFire gzipToy (handleContentChange gzipToy (some [])
      (handleContentChange gzipToy (some [97]) initialState))).currentContent
      = [] ∧
    ([97] : List Nat) ≠ [] := by
  decide

/-- C2 amended: the debounce-timer commit persists the content captured
    when the timer was last armed; since a mutation that differs from the
    last-saved state re-arms the timer with its own content, two rapid
    mutations whose second re-arms, followed by the commit, persist the
    second mutation; and an immediate save with no explicit argument reads
    the current content at the moment it executes. -/
theorem C2_commit_observation (Z : Compressor) (s : EditorState)
    (m1 m2 : List Nat)
    (h2 : m2 ≠ s.lastSavedContent ∨ s.previewMode ≠ s.lastSavedMode)
    (hbudget : (encodeContent Z m2 s.previewMode).length + 1 ≤ MAX_URL_LENGTH) :
    (timerFire Z (handleContentChange Z (some m2)
        (handleContentChange Z (some m1) s))).lastSavedContent = m2 ∧
    (∀ s' : EditorState, s'.hasUnsaved = true → s'.currentContent ≠ [] →
      (encodeContent Z s'.currentContent s'.previewMode).length + 1 ≤
        MAX_URL_LENGTH →
      (saveImmediately Z none s').lastSavedContent = s'.currentContent) := by
  constructor
  · set s1 : EditorState := handleContentChange Z (some m1) s with hs1
    have hf1 := hcc_frame Z (some m1) s
    have h2' : (some m2).getD [] ≠ s1.lastSavedContent ∨
        s1.previewMode ≠ s1.lastSavedMode := by
      rw [hf1.1, hf1.2.1, hf1.2.2.1]
      simpa using h2
    have ha := hcc_armed Z (some m2) s1 h2'
    set s2 : EditorState := handleContentChange Z (some m2) s1 with hs2
    have hf2 := hcc_frame Z (some m2) s1
    have hpm : s2.previewMode = s.previewMode := by
      rw [hf2.2.2.1, hf1.2.2.1]
    have hw := saveToUrl_within Z m2 {s2 with timer := none}
      (by simpa [hpm] using hbudget)
    unfold timerFire
    rw [show s2.timer = some m2 by simpa using ha.1]
    simp only []
    rw [if_pos (by simpa using ha.2)]
    exact hw.1
  · intro s' hflag hne hbud
    unfold saveImmediately
    simp only [Option.getD]
    rw [if_pos (by simpa using ⟨hflag, hne⟩)]
    have hw := saveToUrl_within Z s'.currentContent {s' with timer := none}
      (by simpa using hbud)
    simpa using hw.1

theorem C2_commit_observation_witness :
    (timerFire gzipToy (handleContentChange gzipToy (some [97])
        (handleContentChange gzipToy (some [98]) initialState))).lastSavedContent
      = [97] ∧
    (saveImmediately gzipToy none
      {initialState with currentContent := [99], hasUnsaved := true}).lastSavedContent
      = [99] := by
  have h := C2_commit_observation gzipToy initialState [98] [97]
    (by decide) (by decide)
  exact ⟨h.1, h.2 {initialState with currentContent := [99], hasUnsaved := true}
    rfl (by decide) (by decide)⟩

/-- C4: an over-budget commit leaves the persisted hash, the history count
    and all last-saved tracking unchanged and raises the limit flag; a
    within-budget commit whose encoded value equals the current hash pushes
    no new history entry. -/
theorem C4_budget_atomic (Z : Compressor) (content : List Nat)
    (s : EditorState) :
    ((encodeContent Z content s.previewMode).length + 1 > MAX_URL_LENGTH →
      (saveToUrl Z content s).hash = s.hash ∧
      (saveToUrl Z content s).historyCount = s.historyCount ∧
      (saveToUrl Z content s).lastSavedContent = s.lastSavedContent ∧
      (saveToUrl Z content s).lastSavedMode = s.lastSavedMode ∧
      (saveToUrl Z content s).hasUnsaved = s.hasUnsaved ∧
      (saveToUrl Z content s).isLimitReached = true) ∧
    ((encodeContent Z content s.previewMode).length + 1 ≤ MAX_URL_LENGTH →
      encodeContent Z content s.previewMode = s.hash →
      (saveToUrl Z content s).historyCount = s.historyCount ∧
      (saveToUrl Z content s).hash = s.hash) := by
  constructor
  · intro hover
    simp only [saveToUrl]
    rw [if_neg (by omega)]
    simp
  · intro hwithin hsame
    simp only [saveToUrl]
    rw [if_pos hwithin]
    rw [if_neg (by simp [hsame])]
    simp

theorem btoaM_length (l : List Nat) :
    (btoaM l).length = (l.length + 2) / 3 * 4 := by
  induction l using btoaM.induct with
  | case1 => simp [btoaM]
  | case2 b1 => simp [btoaM]
  | case3 b1 b2 => simp [btoaM]
  | case4 b1 b2 b3 rest ih =>
    simp only [btoaM, List.length_cons, ih]
    omega

/-- A compressor whose streams are far larger than the budget, used to
    exercise the over-budget branch without deep evaluation. -/
def padC : Compressor where
  compress _ := List.replicate 4000 0
  decompress _ := none

theorem C4_budget_atomic_witness :
    (saveToUrl padC [104] initialState).hash = initialState.hash ∧
    (saveToUrl padC [104] initialState).isLimitReached = true ∧
    (saveToUrl gzipToy [104]
        {initialState with
          hash := encodeContent gzipToy [104] PreviewMode.edit}).historyCount =
      ({initialState with
          hash := encodeContent gzipToy [104] PreviewMode.edit} :
        EditorState).historyCount := by
  have hlen : (encodeContent padC [104] PreviewMode.edit).length + 1 >
      MAX_URL_LENGTH := by
    have he : encodeContent padC [104] PreviewMode.edit =
        btoaM (List.replicate 4000 0) := by
      unfold encodeContent
      rw [if_neg (by decide)]
      rfl
    rw [he, btoaM_length, List.length_replicate]
    decide
  have h1 := (C4_budget_atomic padC [104] initialState).1 hlen
  have h2 := (C4_budget_atomic gzipToy [104]
    {initialState with
      hash := encodeContent gzipToy [104] PreviewMode.edit}).2
    (by decide) (by decide)
  exact ⟨h1.1, h1.2.2.2.2.2, h2.1⟩

/-- C5 counterexample: a popstate carrying a corrupt locator (three
    exclamation marks, invalid base64, decoding to the default state)
    leaves the unsaved dirty document, the dirty flag and the armed timer
    all in place: the ContentState is not overwritten with the decoded
    value, the controller does not transition to clean, and the pending
    debounce timer is not cancelled. -/
theorem C5_popstate_counterexample :
    (handlePopState gzipToy [33, 33, 33] {initialState with currentContent := [111, 108, 100], markdownValue := [111, 108, 100], hasUnsaved := true, timer := some [111, 108, 100]}).currentContent = [111, 108, 100] ∧
    (handlePopState gzipToy [33, 33, 33] {initialState with currentContent := [111, 108, 100], markdownValue := [111, 108, 100], hasUnsaved := true, timer := some [111, 108, 100]}).hasUnsaved = true ∧
    (handlePopState gzipToy [33, 33, 33] {initialState with currentContent := [111, 108, 100], markdownValue := [111, 108, 100], hasUnsaved := true, timer := some [111, 108, 100]}).timer = some [111, 108, 100] ∧
    expectStr (decodeContent gzipToy [33, 33, 33]).content = [] ∧
    ([111, 108, 100] : List Nat) ≠ [] := by
  decide

/-- C5 amended: popstate never cancels the armed debounce timer; an empty
    locator resets to the default document and clears the dirty flag; a
    non-empty locator decoding to a falsy-content edit-mode state (in
    particular every corrupt locator) changes nothing but the stored hash;
    a non-empty locator decoding to a non-default state overwrites the
    document, the last-saved tracking and the mode, and clears the dirty
    flag. -/
theorem C5_popstate_behavior (Z : Compressor) (s : EditorState)
    (h : List Nat) :
    (handlePopState Z h s).timer = s.timer ∧
    (h = [] → handlePopState Z h s =
      {s with
        hash := h
        markdownValue := []
        previewMode := .edit
        currentContent := []
        lastSavedContent := []
        lastSavedMode := .edit
        hasUnsaved := false
        usagePercentage := 0
        isLimitReached := false}) ∧
    (h ≠ [] →
      (jsTruthy (decodeContent Z h).content ||
        !(jvalIsEditStr (decodeContent Z h).mode)) = false →
      handlePopState Z h s = {s with hash := h}) ∧
    (h ≠ [] →
      (jsTruthy (decodeContent Z h).content ||
        !(jvalIsEditStr (decodeContent Z h).mode)) = true →
      (handlePopState Z h s).currentContent =
        expectStr (decodeContent Z h).content ∧
      (handlePopState Z h s).previewMode =
        expectMode (decodeContent Z h).mode ∧
      (handlePopState Z h s).lastSavedContent =
        expectStr (decodeContent Z h).content ∧
      (handlePopState Z h s).hasUnsaved = false) := by
  refine ⟨?_, ?_, ?_, ?_⟩
  · unfold handlePopState
    simp only []
    split_ifs <;> simp
  · intro he
    unfold handlePopState
    simp only []
    rw [if_neg (by simp [he])]
  · intro hne hguard
    unfold handlePopState
    simp only []
    rw [if_pos hne, hguard]
    simp
  · intro hne hguard
    unfold handlePopState
    simp only []
    rw [if_pos hne, hguard]
    simp

theorem C5_popstate_behavior_witness :
    (handlePopState gzipToy [33, 33, 33] initialState).timer =
      initialState.timer ∧
    handlePopState gzipToy [] initialState =
      {initialState with
        hash := []
        markdownValue := []
        previewMode := .edit
        currentContent := []
        lastSavedContent := []
        lastSavedMode := .edit
        hasUnsaved := false
        usagePercentage := 0
        isLimitReached := false} ∧
    handlePopState gzipToy [33, 33, 33] initialState =
      {initialState with hash := [33, 33, 33]} := by
  have h1 := C5_popstate_behavior gzipToy initialState [33, 33, 33]
  have h2 := C5_popstate_behavior gzipToy initialState []
  exact ⟨h1.1, h2.2.1 rfl, h1.2.2.1 (by decide) (by decide)⟩

/-- C10: an immediate save while the current document content is empty
    commits nothing: the whole controller state is unchanged except that
    the pending timer is cleared — the hash, history, last-saved tracking
    and dirty flag are untouched even when unsaved changes are flagged.
    The debounced path, in contrast, does persist an armed empty content
    when the flag is set and the encoding fits the budget. -/
theorem C10_immediate_skips_empty (Z : Compressor) (s : EditorState)
    (h : s.currentContent = []) :
    saveImmediately Z none s = {s with timer := none} ∧
    (∀ s' : EditorState, s'.timer = some [] → s'.hasUnsaved = true →
      (encodeContent Z [] s'.previewMode).length + 1 ≤ MAX_URL_LENGTH →
      (timerFire Z s').lastSavedContent = []) := by
  constructor
  · unfold saveImmediately
    simp only [Option.getD]
    rw [if_neg (by simp [h])]
  · intro s' ht hflag hbud
    unfold timerFire
    rw [ht]
    simp only []
    rw [if_pos (by simpa using hflag)]
    have hw := saveToUrl_within Z [] {s' with timer := none}
      (by simpa using hbud)
    exact hw.1

theorem C10_immediate_skips_empty_witness :
    saveImmediately gzipToy none {initialState with hasUnsaved := true, timer := some [104]} =
      {{initialState with hasUnsaved := true, timer := some [104]} with timer := none} ∧
    (timerFire gzipToy {initialState with hasUnsaved := true, timer := some ([] : List Nat)}).lastSavedContent = [] := by
  have h := C10_immediate_skips_empty gzipToy
    {initialState with hasUnsaved := true, timer := some [104]} rfl
  refine ⟨h.1, ?_⟩
  exact h.2 {initialState with hasUnsaved := true, timer := some ([] : List Nat)}
    rfl rfl (by decide)

/-- Consumer-visible credential validation status of the recorder. -/
inductive ConfigStatus where
  | idle
  | validating
  | valid
  | invalid
  | restricted
deriving DecidableEq

/-- A provider configuration: the api key, the only field the validation
    flow inspects. -/
structure ProviderConfig where
  apiKey : List Nat
deriving DecidableEq

/-- Outcome of the provider's validateConfig call: resolved true, resolved
    the string restricted, resolved anything else, or rejected. -/
inductive ValidationOutcome where
  | ok
  | restrictedKey
  | failed
  | threw
deriving DecidableEq

/-- The recorder state the validation flow touches: the visible status and
    the stored configuration of the selected provider. -/
structure RecorderState where
  configStatus : ConfigStatus
  stored : Option ProviderConfig
deriving DecidableEq

/-- validateProviderConfig from the recorder component: an empty api key
    short-circuits to idle; with a provider instance, a true result stores
    the config and reports valid, a restricted result stores the config and
    reports restricted, anything else (including a thrown error) removes
    the stored config and reports invalid; with no provider instance the
    status stays validating. -/
def validateProviderConfig (cfg : ProviderConfig) (providerAvailable : Bool)
    (outcome : ValidationOutcome) (s : RecorderState) : RecorderState :=
  if cfg.apiKey = [] then {s with configStatus := .idle}
  else
    if providerAvailable then
      match outcome with
      | .ok => {s with configStatus := .valid, stored := some cfg}
      | .restrictedKey => {s with configStatus := .restricted, stored := some cfg}
      | .failed => {s with configStatus := .invalid, stored := none}
      | .threw => {s with configStatus := .invalid, stored := none}
    else {s with configStatus := .validating}

/-- C9: credential validation is tri-state at the consumer-visible
    interface: a true result yields status valid with the configuration
    persisted, a restricted result yields the distinct status restricted
    with the configuration also persisted, and any other outcome (a false
    result or a thrown error) yields status invalid with the stored
    configuration removed; restricted is distinct from both invalid and
    valid. -/
theorem C9_tristate_validation (cfg : ProviderConfig) (s : RecorderState)
    (hk : cfg.apiKey ≠ []) :
    validateProviderConfig cfg true .ok s =
      {s with configStatus := .valid, stored := some cfg} ∧
    validateProviderConfig cfg true .restrictedKey s =
      {s with configStatus := .restricted, stored := some cfg} ∧
    validateProviderConfig cfg true .failed s =
      {s with configStatus := .invalid, stored := none} ∧
    validateProviderConfig cfg true .threw s =
      {s with configStatus := .invalid, stored := none} ∧
    ConfigStatus.restricted ≠ ConfigStatus.invalid ∧
    ConfigStatus.restricted ≠ ConfigStatus.valid := by
  unfold validateProviderConfig
  simp only [if_neg hk]
  exact ⟨rfl, rfl, rfl, rfl, by decide, by decide⟩

theorem C9_tristate_validation_witness :
    validateProviderConfig ⟨[107]⟩ true .restrictedKey ⟨.idle, none⟩ =
      {configStatus := .restricted, stored := some ⟨[107]⟩} ∧
    validateProviderConfig ⟨[107]⟩ true .failed ⟨.idle, none⟩ =
      {configStatus := .invalid, stored := none} ∧
    ConfigStatus.restricted ≠ ConfigStatus.invalid := by
  have h := C9_tristate_validation ⟨[107]⟩ ⟨.idle, none⟩ (by decide)
  exact ⟨h.2.1, h.2.2.1, h.2.2.2.2.1⟩

end Vark
